import Mathlib

/-!
Shallow embedding of the gitype data-loading core (package data):
post loading (loadPost, loadPosts), duplicate detection (checkPostsDup),
the stable sort (sortPosts) and links loading (loadLinks), with the
validation types they use.

Modelling conventions:
- Go time.Time is modelled as Int (a point on a time line); the zero
  time.Time is 0, and t1.After(t2) is t2 < t1.
- Filesystem reads, YAML decoding, time.Parse with vars.DateFormat,
  vars.PostURL and the path helpers are external collaborators; they are
  supplied by an Env record of pure functions, so every theorem quantifies
  over their behaviour.
- Go errors are either plain errors (errors.New / an I/O or YAML error
  message) or a helper.FieldError; both are collected in LoadError.
-/

/-- Modelled from the spec: helper.FieldError (the helper package is not in
the repository files given); the spec describes field validation errors as
"structured, carrying file path + field name + message". The Go code in
src/unnamed/part_000 builds them with literals of exactly these three
fields. -/
structure FieldError where
  File : String
  Field : String
  Message : String
  deriving DecidableEq

/-- A Go error returned by the loading functions: either a plain error
carrying a message (errors.New, an I/O error, a YAML error) or a
helper.FieldError. -/
inductive LoadError where
  | str : String → LoadError
  | field : FieldError → LoadError
  deriving DecidableEq

/-- Author, from src/unnamed/part_000 lines 23-28. -/
structure Author where
  Name : String := ""
  URL : String := ""
  Email : String := ""
  Avatar : String := ""
  deriving DecidableEq

/-- Link, from src/unnamed/part_000 lines 31-39. -/
structure Link where
  Icon : String := ""
  Title : String := ""
  Rel : String := ""
  URL : String := ""
  Text : String := ""
  deriving DecidableEq

/-- Post.Order values, from src/unnamed/part_000 lines 121-125. -/
def orderTop : String := "top"

/-- See orderTop. -/
def orderLast : String := "last"

/-- See orderTop. -/
def orderDefault : String := "default"

/-- Post, from src/unnamed/part_000 lines 148-172. Go zero values are the
field defaults. The Tags field (a list of back-references to external Tag
records, yaml:"-", never touched by the loading code modelled here) is
omitted. Note the repurposed fields: HTMLTitle is decoded from yaml key
"modified" and Permalink from yaml key "created". -/
structure Post where
  Slug : String := ""
  Title : String := ""
  HTMLTitle : String := ""
  Created : Int := 0
  Modified : Int := 0
  Summary : String := ""
  Content : String := ""
  TagsString : String := ""
  Permalink : String := ""
  Outdated : String := ""
  Order : String := ""
  Draft : Bool := false
  Author : Option Author := none
  License : Option Link := none
  Template : String := ""
  Keywords : String := ""
  SearchTitle : String := ""
  SearchContent : String := ""
  deriving DecidableEq

/-- The YAML-visible fields of Post, named by their yaml keys (the keys the
struct tags of Post declare: title, modified, summary, tags, created, order,
draft, author, license, template, keywords). A successful helper.LoadYAMLFile
into a zero Post populates exactly these. -/
structure PostMeta where
  title : String := ""
  modified : String := ""
  summary : String := ""
  tags : String := ""
  created : String := ""
  order : String := ""
  draft : Bool := false
  author : Option Author := none
  license : Option Link := none
  template : String := ""
  keywords : String := ""
  deriving DecidableEq

/-- Modelled from the spec: the result of helper.LoadYAMLFile decoding a
metadata file into a fresh Post{} value - the tagged fields take the decoded
values (HTMLTitle from key "modified", Permalink from key "created", per the
struct tags), every yaml:"-" field keeps its Go zero value. -/
def decodeToPost (m : PostMeta) : Post :=
  { Slug := "", Title := m.title, HTMLTitle := m.modified, Created := 0,
    Modified := 0, Summary := m.summary, Content := "", TagsString := m.tags,
    Permalink := m.created, Outdated := "", Order := m.order, Draft := m.draft,
    Author := m.author, License := m.license, Template := m.template,
    Keywords := m.keywords, SearchTitle := "", SearchContent := "" }

/-- The external collaborators of the loading core, as pure functions:
walk is the filepath.Walk discovery result (the slugs found, or an I/O
error), loadMeta slug the helper.LoadYAMLFile result for the slug's
metadata file, readContent slug the ioutil.ReadFile result for the slug's
content file (the error case carries err.Error()), parseDate the
time.Parse vars.DateFormat result (the error case carries err.Error()),
postURL is vars.PostURL, postMetaPath is path.PostMetaPath, pagePost is
vars.PagePost, linksYaml the helper.LoadYAMLFile result for the links
file and metaLinksFile is path.MetaLinksFile. -/
structure Env where
  walk : Except String (List String)
  loadMeta : String → Except String PostMeta
  readContent : String → Except String String
  parseDate : String → Except String Int
  postURL : String → String
  postMetaPath : String → String
  pagePost : String
  linksYaml : Except String (List Link)
  metaLinksFile : String

/-- loadPost, from src/unnamed/part_000 lines 225-298, transliterated
statement by statement (the threaded post value mirrors the Go mutations). -/
def loadPost (env : Env) (slug : String) : Except LoadError Post :=
  match env.loadMeta slug with
  | .error msg => .error (.str msg)
  | .ok m =>
    let post := decodeToPost m
    if post.Draft then .ok post else
    let post := { post with Slug := slug }
    match env.readContent slug with
    | .error msg =>
      .error (.field { File := env.postMetaPath slug, Field := "path", Message := msg })
    | .ok data =>
      if data = "" then
        .error (.field { File := env.postMetaPath slug, Field := "content", Message := "不能为空" })
      else
      let post := { post with Content := data }
      match env.parseDate post.Permalink with
      | .error msg =>
        .error (.field { File := env.postMetaPath slug, Field := "created", Message := msg })
      | .ok created =>
        let post := { post with Created := created }
        let post := { post with Permalink := env.postURL post.Slug }
        match env.parseDate post.HTMLTitle with
        | .error msg =>
          .error (.field { File := env.postMetaPath slug, Field := "modified", Message := msg })
        | .ok modified =>
          let post := { post with Modified := modified }
          let post := { post with HTMLTitle := "" }
          if post.Title = "" then
            .error (.field { File := env.postMetaPath slug, Field := "title", Message := "不能为空" })
          else if post.TagsString = "" then
            .error (.field { File := env.postMetaPath slug, Field := "tags", Message := "不能为空" })
          else
          let post := { post with Keywords := if post.Keywords = "" then post.TagsString else post.Keywords }
          let post := { post with Template := if post.Template = "" then env.pagePost else post.Template }
          if post.Order = "" then
            let post := { post with Order := orderDefault }
            .ok { post with SearchContent := post.Content.toLower, SearchTitle := post.Title.toLower }
          else if post.Order ≠ orderDefault ∧ post.Order ≠ orderLast ∧ post.Order ≠ orderTop then
            .error (.field { File := env.postMetaPath slug, Field := "order", Message := "无效的值" })
          else
            .ok { post with SearchContent := post.Content.toLower, SearchTitle := post.Title.toLower }

/-- The per-slug loop of loadPosts (src/unnamed/part_000 lines 204-214):
load every slug in order, abort on the first error, keep non-draft posts. -/
def loadSlugs (env : Env) : List String → Except LoadError (List Post)
  | [] => .ok []
  | slug :: rest =>
    match loadPost env slug with
    | .error e => .error e
    | .ok post =>
      match loadSlugs env rest with
      | .error e => .error e
      | .ok posts => .ok (if post.Draft then posts else post :: posts)

/-- The count closure of checkPostsDup (src/unnamed/part_000 lines 302-309):
how many posts of the collection carry the given slug. -/
def countSlug (posts : List Post) (slug : String) : Nat :=
  (posts.filter fun post => post.Slug == slug).length

/-- checkPostsDup, from src/unnamed/part_000 lines 301-318: the first post
whose slug is carried by more than one post aborts with a plain error naming
that slug. -/
def checkPostsDup (posts : List Post) : Except LoadError Unit :=
  match posts.find? (fun post => decide (1 < countSlug posts post.Slug)) with
  | some post => .error (.str ("存在同名的文章：" ++ post.Slug))
  | none => .ok ()

/-- The less closure passed to sort.SliceStable by sortPosts
(src/unnamed/part_000 lines 322-331), with a for i and b for j. -/
def postLess (a b : Post) : Bool :=
  if a.Order = orderTop ∨ b.Order = orderLast then true
  else if a.Order = orderLast ∨ b.Order = orderTop then false
  else decide (b.Created < a.Created)

/-- One step of Go's insertion sort (sort.insertionSort): the new element x
moves left past the already placed elements while less x neighbour holds.
The placed prefix is kept in reversed order, so its head is the rightmost
placed element. -/
def bubble {α : Type} (less : α → α → Bool) (x : α) : List α → List α
  | [] => [x]
  | y :: ys => if less x y then y :: bubble less x ys else x :: y :: ys

/-- The reversed result of Go's insertion sort: every element of l is
bubbled in turn into the reversed placed prefix. -/
def raccSort {α : Type} (less : α → α → Bool) (l : List α) : List α :=
  l.foldl (fun racc x => bubble less x racc) []

/-- Model of Go's sort.SliceStable: sort.stable runs insertion sort on
blocks of 20 and merges them, so on every slice of at most 20 elements it
is exactly this single insertion-sort pass; the pass is itself a stable
insertion sort, which stands in for the block merge on longer inputs. -/
def stableSort {α : Type} (less : α → α → Bool) (l : List α) : List α :=
  (raccSort less l).reverse

/-- sortPosts, from src/unnamed/part_000 lines 321-332:
sort.SliceStable with the 3-branch comparator. -/
def sortPosts (posts : List Post) : List Post :=
  stableSort postLess posts

/-- The pin class tests used to state what sortPosts does. -/
def isTop (p : Post) : Bool := p.Order = orderTop

/-- See isTop. -/
def isLast (p : Post) : Bool := p.Order = orderLast

/-- A post in neither the top nor the last class. -/
def isMid (p : Post) : Bool := ¬(p.Order = orderTop) ∧ ¬(p.Order = orderLast)

/-- The comparator restricted to the default branch of postLess:
a.Created.After(b.Created). -/
def createdAfter (a b : Post) : Bool := decide (b.Created < a.Created)

/-- Link.sanitize, from src/unnamed/part_000 lines 73-83: the returned
FieldError has no file path yet (loadLinks fills it in). -/
def Link.sanitize (link : Link) : Option FieldError :=
  if link.Text = "" then some { File := "", Field := "text", Message := "不能为空" }
  else if link.URL = "" then some { File := "", Field := "url", Message := "不能为空" }
  else none

/-- The index loop of loadLinks (src/unnamed/part_000 lines 54-60), with the
running index made explicit: the first link whose sanitize fails aborts with
the error, its Field prefixed by the zero-based index. -/
def checkLinks (file : String) (i : Nat) : List Link → Option LoadError
  | [] => none
  | link :: rest =>
    match link.sanitize with
    | some e =>
      some (.field { File := file, Field := "[" ++ toString i ++ "]." ++ e.Field, Message := e.Message })
    | none => checkLinks file (i + 1) rest

/-- loadLinks, from src/unnamed/part_000 lines 48-63. -/
def loadLinks (env : Env) : Except LoadError (List Link) :=
  match env.linksYaml with
  | .error msg => .error (.str msg)
  | .ok links =>
    match checkLinks env.metaLinksFile 0 links with
    | some e => .error e
    | none => .ok links

/-- loadPosts, from src/unnamed/part_000 lines 174-223: discovery, per-slug
loads, duplicate check, stable sort. -/
def loadPosts (env : Env) : Except LoadError (List Post) :=
  match env.walk with
  | .error msg => .error (.str msg)
  | .ok slugs =>
    match loadSlugs env slugs with
    | .error e => .error e
    | .ok posts =>
      match checkPostsDup posts with
      | .error e => .error e
      | .ok _ => .ok (sortPosts posts)

/-! ### Concrete instances used by the counterexamples and witnesses -/

/-- Two pinned posts sharing the top class, in input order a then b. -/
def c1TopA : Post := { Title := "a", Order := orderTop }

/-- See c1TopA. -/
def c1TopB : Post := { Title := "b", Order := orderTop }

/-- Concrete posts exhibiting the comparator's asymmetry violation. -/
def c6TopA : Post := { Title := "ta", Order := orderTop }

/-- See c6TopA. -/
def c6TopB : Post := { Title := "tb", Order := orderTop }

/-- See c6TopA. -/
def c6LastA : Post := { Title := "la", Order := orderLast }

/-- See c6TopA. -/
def c6LastB : Post := { Title := "lb", Order := orderLast }

/-- Concrete two-post collections for the sort contract instances. -/
def c8TopEarly : Post := { Title := "a", Order := orderTop, Created := 1 }

/-- See c8TopEarly. -/
def c8DefLate : Post := { Title := "b", Order := orderDefault, Created := 2 }

/-- See c8TopEarly. -/
def c8DefEarly : Post := { Title := "c", Order := orderDefault, Created := 1 }

/-- See c8TopEarly. -/
def c8DefLate2 : Post := { Title := "d", Order := orderDefault, Created := 2 }

/-- A fully valid metadata record. -/
def goodMeta : PostMeta :=
  { title := "t", modified := "mo", summary := "s", tags := "g", created := "cr" }

/-- A base environment in which every slug resolves to goodMeta, content
reads give a non-empty body, and every timestamp parses to 0. -/
def baseEnv : Env :=
  { walk := .ok [], loadMeta := fun _ => .ok goodMeta,
    readContent := fun _ => .ok "body", parseDate := fun _ => .ok 0,
    postURL := fun s => "/posts/" ++ s, postMetaPath := fun s => "meta/" ++ s,
    pagePost := "post", linksYaml := .ok [], metaLinksFile := "links" }

/-- The post loadPost builds from goodMeta under baseEnv for slug a. -/
def loadedPostA : Post :=
  { Slug := "a", Title := "t", HTMLTitle := "", Created := 0, Modified := 0,
    Summary := "s", Content := "body", TagsString := "g",
    Permalink := "/posts/a", Outdated := "", Order := orderDefault,
    Draft := false, Author := none, License := none, Template := "post",
    Keywords := "g", SearchTitle := "t".toLower,
    SearchContent := "body".toLower }

/-- A draft metadata record that would fail every validation if checked:
empty title, unparsable created value, invalid order. -/
def c3DraftMeta : PostMeta :=
  { title := "", modified := "garbage", summary := "", tags := "",
    created := "garbage", order := "middle", draft := true }

/-- An environment whose walk finds one slug, whose metadata is the draft
c3DraftMeta, whose content file is unreadable and whose dates never parse. -/
def c3Env : Env :=
  { baseEnv with
    walk := .ok ["d"],
    loadMeta := fun _ => .ok c3DraftMeta,
    readContent := fun _ => .error "no such file",
    parseDate := fun _ => .error "bad date" }

/-- An environment whose content file is unreadable. -/
def c4ErrEnv : Env := { baseEnv with readContent := fun _ => .error "boom" }

/-- An environment whose content file is empty. -/
def c4EmptyEnv : Env := { baseEnv with readContent := fun _ => .ok "" }

/-- A non-draft metadata record with an empty title and a created value the
date parser rejects (the modified value parses). -/
def c5Meta : PostMeta :=
  { title := "", modified := "good", summary := "", tags := "g",
    created := "nope" }

/-- An environment for c5Meta: only the string good parses as a date. -/
def c5Env : Env :=
  { baseEnv with
    loadMeta := fun _ => .ok c5Meta,
    parseDate := fun d => if d = "good" then .ok 7 else .error "bad date" }

/-- A non-draft metadata record with order middle, otherwise valid. -/
def c7Meta : PostMeta :=
  { title := "t", modified := "mo", summary := "", tags := "g",
    created := "cr", order := "middle" }

/-- An environment serving c7Meta. -/
def c7Env : Env := { baseEnv with loadMeta := fun _ => .ok c7Meta }

/-- A valid link and a link with empty text. -/
def c9GoodLink : Link := { URL := "u", Text := "x" }

/-- See c9GoodLink. -/
def c9BadLink : Link := { URL := "u", Text := "" }

/-- An environment whose links file holds a valid entry followed by one
with empty text. -/
def c9Env : Env := { baseEnv with linksYaml := .ok [c9GoodLink, c9BadLink] }

/-- An environment whose links file holds a single valid entry. -/
def c9OkEnv : Env := { baseEnv with linksYaml := .ok [c9GoodLink] }

/-- A draft metadata record keeping raw values in every repurposed field. -/
def c10Meta : PostMeta :=
  { title := "t", modified := "rawmod", summary := "", tags := "g",
    created := "rawcreated", order := "middle", draft := true }

/-- An environment serving c10Meta. -/
def c10Env : Env := { baseEnv with loadMeta := fun _ => .ok c10Meta }

/-- An environment whose walk finds the same slug twice (e.g. via a symlink
or duplicate directory), every load succeeding. -/
def c2DupEnv : Env := { baseEnv with walk := .ok ["a", "a"] }

/-- An environment whose links file cannot be loaded. -/
def c9ErrEnv : Env := { baseEnv with linksYaml := .error "cannot load links" }

/-! ### Lemmas on the insertion pass -/

theorem bubble_split {α : Type} (less : α → α → Bool) (x : α) (l : List α) :
    ∃ A B, l = A ++ B ∧ bubble less x l = A ++ x :: B ∧
      (∀ y ∈ A, less x y = true) ∧ ∀ b, B.head? = some b → less x b = false := by
  induction l with
  | nil => exact ⟨[], [], rfl, rfl, by simp, by simp⟩
  | cons y ys ih =>
    by_cases h : less x y = true
    · obtain ⟨A, B, h1, h2, h3, h4⟩ := ih
      refine ⟨y :: A, B, by simp [h1], by simp [bubble, h, h2], ?_, h4⟩
      intro z hz
      rcases List.mem_cons.1 hz with hz | hz
      · exact hz ▸ h
      · exact h3 z hz
    · refine ⟨[], y :: ys, rfl, by simp [bubble, h], by simp, ?_⟩
      intro b hb
      simp only [List.head?_cons, Option.some.injEq] at hb
      simpa [← hb] using h

theorem bubble_pass {α : Type} {less : α → α → Bool} {x : α} {A : List α}
    (h : ∀ y ∈ A, less x y = true) (B : List α) :
    bubble less x (A ++ B) = A ++ bubble less x B := by
  induction A with
  | nil => rfl
  | cons y ys ih =>
    have hy : less x y = true := h y (List.mem_cons_self y ys)
    simp only [List.cons_append, bubble, hy, if_true, List.append_eq]
    rw [ih fun z hz => h z (List.mem_cons_of_mem y hz)]

theorem bubble_stop {α : Type} {less : α → α → Bool} {x : α} {B : List α}
    (h : ∀ b, B.head? = some b → less x b = false) :
    bubble less x B = x :: B := by
  cases B with
  | nil => rfl
  | cons b bs => simp [bubble, h b rfl]

theorem bubble_append_stop {α : Type} {less : α → α → Bool} {x : α} (A : List α) {B : List α}
    (h : ∀ b, B.head? = some b → less x b = false) :
    bubble less x (A ++ B) = bubble less x A ++ B := by
  induction A with
  | nil => simpa [bubble] using bubble_stop h
  | cons y ys ih =>
    by_cases hy : less x y = true
    · simp only [List.cons_append, bubble, hy, if_true, List.append_eq]
      rw [ih]
    · simp [bubble, hy]

theorem bubble_congr {α : Type} {less less2 : α → α → Bool} {x : α} {l : List α}
    (h : ∀ y ∈ l, less x y = less2 x y) :
    bubble less x l = bubble less2 x l := by
  induction l with
  | nil => rfl
  | cons y ys ih =>
    have hy : less x y = less2 x y := h y (List.mem_cons_self y ys)
    by_cases h2 : less2 x y = true
    · simp only [bubble, hy, h2, if_true]
      rw [ih fun z hz => h z (List.mem_cons_of_mem y hz)]
    · simp [bubble, hy, h2]

theorem bubble_all {α : Type} {less : α → α → Bool} {x : α} {l : List α}
    (h : ∀ y ∈ l, less x y = true) :
    bubble less x l = l ++ [x] := by
  have := bubble_pass h ([] : List α)
  simpa [bubble] using this

theorem raccSort_append_singleton {α : Type} (less : α → α → Bool) (l : List α) (x : α) :
    raccSort less (l ++ [x]) = bubble less x (raccSort less l) := by
  simp [raccSort, List.foldl_append]

theorem raccSort_perm {α : Type} (less : α → α → Bool) (l : List α) :
    List.Perm (raccSort less l) l := by
  induction l using List.reverseRecOn with
  | nil => rfl
  | append_singleton l x ih =>
    rw [raccSort_append_singleton]
    obtain ⟨A, B, h1, h2, -, -⟩ := bubble_split less x (raccSort less l)
    have step1 : List.Perm (bubble less x (raccSort less l)) (x :: raccSort less l) := by
      rw [h2, h1]; exact List.perm_middle
    have step2 : List.Perm (x :: raccSort less l) (x :: l) := ih.cons x
    have step3 : List.Perm (x :: l) (l ++ [x]) := (List.perm_append_singleton x l).symm
    exact (step1.trans step2).trans step3

theorem stableSort_perm {α : Type} (less : α → α → Bool) (l : List α) :
    List.Perm (stableSort less l) l :=
  (List.reverse_perm (raccSort less l)).trans (raccSort_perm less l)

theorem sortPosts_perm (posts : List Post) : List.Perm (sortPosts posts) posts :=
  stableSort_perm postLess posts

theorem mem_raccSort {α : Type} {less : α → α → Bool} {l : List α} {y : α}
    (h : y ∈ raccSort less l) : y ∈ l :=
  (raccSort_perm less l).mem_iff.1 h

/-! ### The class structure of the insertion pass over postLess -/

theorem postLess_of_top {x y : Post} (hx : x.Order = orderTop) :
    postLess x y = true := by
  simp [postLess, hx]

theorem postLess_of_last_right {x y : Post} (hy : y.Order = orderLast) :
    postLess x y = true := by
  simp [postLess, hy]

theorem postLess_last_left {x y : Post} (hx : x.Order = orderLast)
    (_hyT : ¬y.Order = orderTop) (hyL : ¬y.Order = orderLast) :
    postLess x y = false := by
  have hne : orderLast ≠ orderTop := by decide
  unfold postLess
  rw [if_neg (by rintro (h | h); exacts [hne (hx ▸ h), hyL h]), if_pos (Or.inl hx)]

theorem postLess_last_left_top {x y : Post} (hx : x.Order = orderLast)
    (hy : y.Order = orderTop) :
    postLess x y = false := by
  have hne1 : orderLast ≠ orderTop := by decide
  have hne2 : orderTop ≠ orderLast := by decide
  unfold postLess
  rw [if_neg (by rintro (h | h); exacts [hne1 (hx ▸ h), hne2 (hy ▸ h)]),
    if_pos (Or.inl hx)]

theorem postLess_mid_top {x y : Post} (hxT : ¬x.Order = orderTop)
    (_hxL : ¬x.Order = orderLast) (hy : y.Order = orderTop) :
    postLess x y = false := by
  have hne : orderTop ≠ orderLast := by decide
  unfold postLess
  rw [if_neg (by rintro (h | h); exacts [hxT h, hne (hy ▸ h)]),
    if_pos (Or.inr hy)]

theorem postLess_mid_mid {x y : Post} (hxT : ¬x.Order = orderTop)
    (hxL : ¬x.Order = orderLast) (hyT : ¬y.Order = orderTop)
    (hyL : ¬y.Order = orderLast) :
    postLess x y = createdAfter x y := by
  unfold postLess createdAfter
  rw [if_neg (by rintro (h | h); exacts [hxT h, hyL h]),
    if_neg (by rintro (h | h); exacts [hxL h, hyT h])]

theorem isMid_iff {p : Post} :
    isMid p = true ↔ ¬p.Order = orderTop ∧ ¬p.Order = orderLast := by
  simp [isMid]

theorem raccSort_postLess_structure (l : List Post) :
    raccSort postLess l =
      l.filter isLast ++ raccSort createdAfter (l.filter isMid) ++ l.filter isTop := by
  induction l using List.reverseRecOn with
  | nil => rfl
  | append_singleton l x ih =>
    have hfL : (l ++ [x]).filter isLast = l.filter isLast ++ [x].filter isLast :=
      List.filter_append l [x]
    have hfM : (l ++ [x]).filter isMid = l.filter isMid ++ [x].filter isMid :=
      List.filter_append l [x]
    have hfT : (l ++ [x]).filter isTop = l.filter isTop ++ [x].filter isTop :=
      List.filter_append l [x]
    have memL : ∀ y ∈ l.filter isLast, y.Order = orderLast := by
      intro y hy
      have := List.of_mem_filter hy
      simpa [isLast] using this
    have memM : ∀ y ∈ raccSort createdAfter (l.filter isMid),
        ¬y.Order = orderTop ∧ ¬y.Order = orderLast := by
      intro y hy
      have := List.of_mem_filter (mem_raccSort hy)
      simpa [isMid] using this
    have memT : ∀ y ∈ l.filter isTop, y.Order = orderTop := by
      intro y hy
      have := List.of_mem_filter hy
      simpa [isTop] using this
    rw [raccSort_append_singleton, ih]
    by_cases hT : x.Order = orderTop
    · have hall : ∀ y ∈ l.filter isLast ++ raccSort createdAfter (l.filter isMid) ++
          l.filter isTop, postLess x y = true := fun y _ => postLess_of_top hT
      rw [bubble_all hall, hfL, hfM, hfT]
      have e1 : [x].filter isLast = [] := by
        simp [isLast, hT, orderTop, orderLast]
      have e2 : [x].filter isMid = [] := by
        simp [isMid, hT]
      have e3 : [x].filter isTop = [x] := by
        simp [isTop, hT]
      simp [e1, e2, e3]
    · by_cases hL : x.Order = orderLast
      · have hpass : ∀ y ∈ l.filter isLast, postLess x y = true := fun y hy =>
          postLess_of_last_right (memL y hy)
        have hstop : ∀ b, (raccSort createdAfter (l.filter isMid) ++
            l.filter isTop).head? = some b → postLess x b = false := by
          intro b hb
          have hbmem : b ∈ raccSort createdAfter (l.filter isMid) ++ l.filter isTop :=
            List.mem_of_mem_head? hb
          rcases List.mem_append.1 hbmem with hbm | hbt
          · obtain ⟨hbT, hbL⟩ := memM b hbm
            exact postLess_last_left hL hbT hbL
          · exact postLess_last_left_top hL (memT b hbt)
        rw [List.append_assoc, bubble_pass hpass, bubble_stop hstop,
          hfL, hfM, hfT]
        have e1 : [x].filter isLast = [x] := by
          simp [isLast, hL]
        have e2 : [x].filter isMid = [] := by
          simp [isMid, hL]
        have e3 : [x].filter isTop = [] := by
          simp [isTop, hL, orderTop, orderLast]
        simp [e1, e2, e3]
      · have hpass : ∀ y ∈ l.filter isLast, postLess x y = true := fun y hy =>
          postLess_of_last_right (memL y hy)
        have hstop : ∀ b, (l.filter isTop).head? = some b → postLess x b = false := by
          intro b hb
          exact postLess_mid_top hT hL (memT b (List.mem_of_mem_head? hb))
        have hcong : ∀ y ∈ raccSort createdAfter (l.filter isMid),
            postLess x y = createdAfter x y := by
          intro y hy
          obtain ⟨hyT, hyL⟩ := memM y hy
          exact postLess_mid_mid hT hL hyT hyL
        rw [List.append_assoc, bubble_pass hpass,
          bubble_append_stop (raccSort createdAfter (l.filter isMid)) hstop,
          bubble_congr hcong, ← raccSort_append_singleton,
          hfL, hfM, hfT]
        have e1 : [x].filter isLast = [] := by
          simp [isLast, hL]
        have e2 : [x].filter isMid = [x] := by
          simp [isMid, hT, hL]
        have e3 : [x].filter isTop = [] := by
          simp [isTop, hT]
        simp [e1, e2, e3]

theorem sortPosts_structure (l : List Post) :
    sortPosts l = (l.filter isTop).reverse ++ stableSort createdAfter (l.filter isMid) ++
      (l.filter isLast).reverse := by
  unfold sortPosts stableSort
  rw [raccSort_postLess_structure]
  simp [List.reverse_append, List.append_assoc]

/-! ### Sortedness and stability of the default-class pass -/

theorem raccSort_createdAfter_sorted (m : List Post) :
    (raccSort createdAfter m).Pairwise fun a b => a.Created ≤ b.Created := by
  induction m using List.reverseRecOn with
  | nil => simp [raccSort]
  | append_singleton m x ih =>
    rw [raccSort_append_singleton]
    obtain ⟨A, B, h1, h2, h3, h4⟩ := bubble_split createdAfter x (raccSort createdAfter m)
    rw [h1] at ih
    rw [h2]
    have hA : ∀ y ∈ A, y.Created < x.Created := by
      intro y hy
      have := h3 y hy
      simpa [createdAfter] using this
    have hxB : ∀ b ∈ B, x.Created ≤ b.Created := by
      intro b hb
      cases B with
      | nil => cases hb
      | cons b0 bs =>
        have hb0 : x.Created ≤ b0.Created := by
          have := h4 b0 rfl
          simpa [createdAfter] using this
        rcases List.mem_cons.1 hb with hb | hb
        · exact hb ▸ hb0
        · have hpb : (b0 :: bs).Pairwise fun a b => a.Created ≤ b.Created :=
            (List.pairwise_append.1 ih).2.1
          exact hb0.trans ((List.pairwise_cons.1 hpb).1 b hb)
    obtain ⟨pA, pB, cross⟩ := List.pairwise_append.1 ih
    refine List.pairwise_append.2 ⟨pA, ?_, ?_⟩
    · refine List.pairwise_cons.2 ⟨hxB, pB⟩
    · intro a ha b hb
      rcases List.mem_cons.1 hb with hb | hb
      · exact hb ▸ (hA a ha).le
      · exact cross a ha b hb

theorem stableSort_createdAfter_sorted (m : List Post) :
    (stableSort createdAfter m).Pairwise fun a b => b.Created ≤ a.Created := by
  unfold stableSort
  rw [List.pairwise_reverse]
  exact raccSort_createdAfter_sorted m

theorem raccSort_createdAfter_filter (m : List Post) (t : Int) :
    (raccSort createdAfter m).filter (fun p => p.Created == t) =
      ((m.filter fun p => p.Created == t)).reverse := by
  induction m using List.reverseRecOn with
  | nil => simp [raccSort]
  | append_singleton m x ih =>
    rw [raccSort_append_singleton]
    obtain ⟨A, B, h1, h2, h3, -⟩ := bubble_split createdAfter x (raccSort createdAfter m)
    rw [h1, List.filter_append] at ih
    rw [h2]
    by_cases ht : x.Created = t
    · have hAf : A.filter (fun p => p.Created == t) = [] := by
        rw [List.filter_eq_nil_iff]
        intro y hy
        have hlt : y.Created < x.Created := by
          have := h3 y hy
          simpa [createdAfter] using this
        rw [ht] at hlt
        simp only [beq_iff_eq]
        omega
      rw [hAf] at ih
      simp only [List.nil_append] at ih
      simp [List.filter_append, List.filter_cons, hAf, ht, ih]
    · have hne : (x.Created == t) = false := by simpa using ht
      simp [List.filter_append, List.filter_cons, hne, ih]

theorem stableSort_createdAfter_filter (m : List Post) (t : Int) :
    (stableSort createdAfter m).filter (fun p => p.Created == t) =
      m.filter fun p => p.Created == t := by
  unfold stableSort
  rw [List.filter_reverse, raccSort_createdAfter_filter, List.reverse_reverse]

/-! ### Claim theorems on the sorter -/

/-- C1, counterexample: the claim says posts with order=top keep their
original relative order among themselves, so on the input [c1TopA, c1TopB]
it predicts the output [c1TopA, c1TopB]; sortPosts returns [c1TopB, c1TopA]
instead (the comparator answers true on every pair of top posts, so the
stable sort's insertion pass swaps them). -/
theorem sortPosts_top_pair_counterexample :
    sortPosts [c1TopA, c1TopB] = [c1TopB, c1TopA] ∧
      ([c1TopB, c1TopA] : List Post) ≠ [c1TopA, c1TopB] := by
  constructor
  · rfl
  · decide

/-- C1 (amended): sortPosts reorders the collection so that the top-class
posts come first with their original relative order reversed, the last-class
posts come at the end with their original relative order reversed, and the
remaining posts sit in between ordered by descending creation time, ties
keeping input order: the middle block is a permutation of the remaining
posts, pairwise non-increasing in Created, and filtering it by any creation
time t returns those posts in input order. -/
theorem sortPosts_pin_class_decomposition (l : List Post) :
    sortPosts l = (l.filter isTop).reverse ++ stableSort createdAfter (l.filter isMid) ++
        (l.filter isLast).reverse
    ∧ List.Perm (stableSort createdAfter (l.filter isMid)) (l.filter isMid)
    ∧ (stableSort createdAfter (l.filter isMid)).Pairwise (fun a b => b.Created ≤ a.Created)
    ∧ ∀ t : Int, (stableSort createdAfter (l.filter isMid)).filter (fun p => p.Created == t) =
        (l.filter isMid).filter fun p => p.Created == t :=
  ⟨sortPosts_structure l, stableSort_perm createdAfter (l.filter isMid),
    stableSort_createdAfter_sorted (l.filter isMid),
    fun t => stableSort_createdAfter_filter (l.filter isMid) t⟩

/-- C6: the 3-branch comparator of sortPosts is not a strict weak ordering:
on the pair of top posts c6TopA, c6TopB it answers true in both directions,
and likewise on the pair of last posts c6LastA, c6LastB, violating
asymmetry. -/
theorem postLess_not_asymmetric :
    c6TopA.Order = orderTop ∧ c6TopB.Order = orderTop ∧
      postLess c6TopA c6TopB = true ∧ postLess c6TopB c6TopA = true ∧
      c6LastA.Order = orderLast ∧ c6LastB.Order = orderLast ∧
      postLess c6LastA c6LastB = true ∧ postLess c6LastB c6LastA = true := by
  refine ⟨rfl, rfl, rfl, rfl, rfl, rfl, rfl, rfl⟩

/-- C8: on the two-post collection [a, b], if a is top and b is default
with a later creation time the output is [a, b]; if both are default and b
has the later creation time the output is [b, a]. -/
theorem sortPosts_two_post_contract (a b c d : Post)
    (ha : a.Order = orderTop) (hb : b.Order = orderDefault)
    (_hab : a.Created < b.Created)
    (hc : c.Order = orderDefault) (hd : d.Order = orderDefault)
    (hcd : c.Created < d.Created) :
    sortPosts [a, b] = [a, b] ∧ sortPosts [c, d] = [d, c] := by
  constructor
  · have h1 : postLess b a = false := by
      have hbT : ¬b.Order = orderTop := by rw [hb]; decide
      have hbL : ¬b.Order = orderLast := by rw [hb]; decide
      exact postLess_mid_top hbT hbL ha
    simp [sortPosts, stableSort, raccSort, bubble, h1]
  · have h1 : postLess d c = true := by
      have hdT : ¬d.Order = orderTop := by rw [hd]; decide
      have hdL : ¬d.Order = orderLast := by rw [hd]; decide
      have hcT : ¬c.Order = orderTop := by rw [hc]; decide
      have hcL : ¬c.Order = orderLast := by rw [hc]; decide
      rw [postLess_mid_mid hdT hdL hcT hcL]
      simpa [createdAfter] using hcd
    simp [sortPosts, stableSort, raccSort, bubble, h1]

/-- C8 at a concrete input: a top post created at 1 before a default post
created at 2 stays in front; two default posts created at 1 and 2 come out
most recent first. -/
theorem sortPosts_two_post_contract_witness :
    sortPosts [c8TopEarly, c8DefLate] = [c8TopEarly, c8DefLate] ∧
      sortPosts [c8DefEarly, c8DefLate2] = [c8DefLate2, c8DefEarly] :=
  sortPosts_two_post_contract c8TopEarly c8DefLate c8DefEarly c8DefLate2
    rfl rfl (by decide) rfl rfl (by decide)

/-! ### Lemmas on loadPost -/

theorem loadPost_draft {env : Env} {slug : String} {m : PostMeta}
    (hm : env.loadMeta slug = .ok m) (hd : m.draft = true) :
    loadPost env slug = .ok (decodeToPost m) := by
  simp [loadPost, hm, decodeToPost, hd]

theorem loadPost_content_unreadable {env : Env} {slug : String} {m : PostMeta} {msg : String}
    (hm : env.loadMeta slug = .ok m) (hd : m.draft = false)
    (hr : env.readContent slug = .error msg) :
    loadPost env slug = .error (.field
      { File := env.postMetaPath slug, Field := "path", Message := msg }) := by
  simp [loadPost, hm, decodeToPost, hd, hr]

theorem loadPost_content_empty {env : Env} {slug : String} {m : PostMeta}
    (hm : env.loadMeta slug = .ok m) (hd : m.draft = false)
    (hr : env.readContent slug = .ok "") :
    loadPost env slug = .error (.field
      { File := env.postMetaPath slug, Field := "content", Message := "不能为空" }) := by
  simp [loadPost, hm, decodeToPost, hd, hr]

theorem loadPost_created_bad {env : Env} {slug : String} {m : PostMeta} {d msg : String}
    (hm : env.loadMeta slug = .ok m) (hd : m.draft = false)
    (hr : env.readContent slug = .ok d) (hne : d ≠ "")
    (hp : env.parseDate m.created = .error msg) :
    loadPost env slug = .error (.field
      { File := env.postMetaPath slug, Field := "created", Message := msg }) := by
  simp [loadPost, hm, decodeToPost, hd, hr, hne, hp]

theorem loadPost_modified_bad {env : Env} {slug : String} {m : PostMeta} {d : String}
    {tc : Int} {msg : String}
    (hm : env.loadMeta slug = .ok m) (hd : m.draft = false)
    (hr : env.readContent slug = .ok d) (hne : d ≠ "")
    (hp : env.parseDate m.created = .ok tc)
    (hq : env.parseDate m.modified = .error msg) :
    loadPost env slug = .error (.field
      { File := env.postMetaPath slug, Field := "modified", Message := msg }) := by
  simp [loadPost, hm, decodeToPost, hd, hr, hne, hp, hq]

theorem loadPost_title_empty {env : Env} {slug : String} {m : PostMeta} {d : String}
    {tc tm : Int}
    (hm : env.loadMeta slug = .ok m) (hd : m.draft = false)
    (hr : env.readContent slug = .ok d) (hne : d ≠ "")
    (hp : env.parseDate m.created = .ok tc)
    (hq : env.parseDate m.modified = .ok tm) (ht : m.title = "") :
    loadPost env slug = .error (.field
      { File := env.postMetaPath slug, Field := "title", Message := "不能为空" }) := by
  simp [loadPost, hm, decodeToPost, hd, hr, hne, hp, hq, ht]

theorem loadPost_tags_empty {env : Env} {slug : String} {m : PostMeta} {d : String}
    {tc tm : Int}
    (hm : env.loadMeta slug = .ok m) (hd : m.draft = false)
    (hr : env.readContent slug = .ok d) (hne : d ≠ "")
    (hp : env.parseDate m.created = .ok tc)
    (hq : env.parseDate m.modified = .ok tm) (ht : m.title ≠ "") (hg : m.tags = "") :
    loadPost env slug = .error (.field
      { File := env.postMetaPath slug, Field := "tags", Message := "不能为空" }) := by
  simp [loadPost, hm, decodeToPost, hd, hr, hne, hp, hq, ht, hg]

theorem loadPost_order_bad {env : Env} {slug : String} {m : PostMeta} {d : String}
    {tc tm : Int}
    (hm : env.loadMeta slug = .ok m) (hd : m.draft = false)
    (hr : env.readContent slug = .ok d) (hne : d ≠ "")
    (hp : env.parseDate m.created = .ok tc)
    (hq : env.parseDate m.modified = .ok tm) (ht : m.title ≠ "") (hg : m.tags ≠ "")
    (ho : m.order ≠ "") (h1 : m.order ≠ orderDefault) (h2 : m.order ≠ orderLast)
    (h3 : m.order ≠ orderTop) :
    loadPost env slug = .error (.field
      { File := env.postMetaPath slug, Field := "order", Message := "无效的值" }) := by
  simp [loadPost, hm, decodeToPost, hd, hr, hne, hp, hq, ht, hg, ho, h1, h2, h3]

theorem loadPost_ok_order_map {env : Env} {slug : String} {m : PostMeta} {d : String}
    {tc tm : Int}
    (hm : env.loadMeta slug = .ok m) (hd : m.draft = false)
    (hr : env.readContent slug = .ok d) (hne : d ≠ "")
    (hp : env.parseDate m.created = .ok tc)
    (hq : env.parseDate m.modified = .ok tm) (ht : m.title ≠ "") (hg : m.tags ≠ "")
    (ho : m.order = "" ∨ m.order = orderDefault ∨ m.order = orderLast ∨ m.order = orderTop) :
    (loadPost env slug).map Post.Order = .ok (if m.order = "" then orderDefault else m.order) := by
  rcases ho with ho | ho | ho | ho
  · simp [loadPost, hm, decodeToPost, hd, hr, hne, hp, hq, ht, hg, ho, Except.map]
  · simp [loadPost, hm, decodeToPost, hd, hr, hne, hp, hq, ht, hg, ho, Except.map, orderDefault]
  · simp [loadPost, hm, decodeToPost, hd, hr, hne, hp, hq, ht, hg, ho, Except.map, orderDefault,
      orderLast]
  · simp [loadPost, hm, decodeToPost, hd, hr, hne, hp, hq, ht, hg, ho, Except.map, orderDefault,
      orderLast, orderTop]

theorem loadPost_ok_valid_order {env : Env} {slug : String} {p : Post}
    (h : loadPost env slug = .ok p) (hnd : p.Draft = false) :
    p.Order = orderTop ∨ p.Order = orderLast ∨ p.Order = orderDefault := by
  unfold loadPost at h
  cases hm : env.loadMeta slug with
  | error msg => rw [hm] at h; simp at h
  | ok m =>
    rw [hm] at h
    by_cases hd : m.draft = true
    · have hp2 : decodeToPost m = p := by
        simpa [decodeToPost, hd] using h
      rw [← hp2] at hnd
      simp [decodeToPost, hd] at hnd
    · simp only [Bool.not_eq_true] at hd
      cases hr : env.readContent slug with
      | error msg => simp [hr, decodeToPost, hd] at h
      | ok d =>
        by_cases hde : d = ""
        · simp [hr, hde, decodeToPost, hd] at h
        · cases hp : env.parseDate m.created with
          | error msg => simp [hr, hde, hp, decodeToPost, hd] at h
          | ok tc =>
            cases hq : env.parseDate m.modified with
            | error msg => simp [hr, hde, hp, hq, decodeToPost, hd] at h
            | ok tm =>
              by_cases ht : m.title = ""
              · simp [hr, hde, hp, hq, ht, decodeToPost, hd] at h
              · by_cases hg : m.tags = ""
                · simp [hr, hde, hp, hq, ht, hg, decodeToPost, hd] at h
                · by_cases ho : m.order = ""
                  · have hp2 := h
                    simp [hr, hde, hp, hq, ht, hg, ho, decodeToPost, hd] at hp2
                    right; right
                    rw [← hp2]
                  · by_cases h1 : m.order = orderDefault
                    · have hp2 := h
                      simp [hr, hde, hp, hq, ht, hg, ho, h1, decodeToPost, hd,
                        orderDefault, orderLast, orderTop] at hp2
                      right; right
                      rw [← hp2]
                      simp [orderDefault]
                    · by_cases h2 : m.order = orderLast
                      · have hp2 := h
                        simp [hr, hde, hp, hq, ht, hg, ho, h1, h2, decodeToPost, hd,
                          orderDefault, orderLast, orderTop] at hp2
                        right; left
                        rw [← hp2]
                        simp [orderLast]
                      · by_cases h3 : m.order = orderTop
                        · have hp2 := h
                          simp [hr, hde, hp, hq, ht, hg, ho, h1, h2, h3, decodeToPost, hd,
                            orderDefault, orderLast, orderTop] at hp2
                          left
                          rw [← hp2]
                          simp [orderTop]
                        · simp [hr, hde, hp, hq, ht, hg, ho, h1, h2, h3, decodeToPost, hd] at h

/-! ### Lemmas on loadSlugs, checkPostsDup and loadPosts -/

theorem loadSlugs_sound {env : Env} {sl : List String} {posts : List Post}
    (h : loadSlugs env sl = .ok posts) :
    ∀ p ∈ posts, p.Draft = false ∧ ∃ s, loadPost env s = .ok p := by
  induction sl generalizing posts with
  | nil =>
    simp only [loadSlugs] at h
    obtain rfl : ([] : List Post) = posts := by simpa using h
    simp
  | cons s rest ih =>
    unfold loadSlugs at h
    cases hl : loadPost env s with
    | error e => rw [hl] at h; simp at h
    | ok post =>
      rw [hl] at h
      cases hr : loadSlugs env rest with
      | error e => rw [hr] at h; simp at h
      | ok ps =>
        rw [hr] at h
        have h2 : (if post.Draft then ps else post :: ps) = posts := by simpa using h
        by_cases hdb : post.Draft
        · rw [if_pos hdb] at h2
          subst h2
          exact ih hr
        · rw [if_neg hdb] at h2
          subst h2
          intro p hp
          rcases List.mem_cons.1 hp with hp | hp
          · subst hp
            exact ⟨Bool.not_eq_true _ ▸ by simpa using hdb, s, hl⟩
          · exact ih hr p hp

theorem countSlug_eq_count (posts : List Post) (s : String) :
    countSlug posts s = (posts.map Post.Slug).count s := by
  induction posts with
  | nil => rfl
  | cons p ps ih =>
    by_cases h : p.Slug = s
    · simp only [countSlug, List.filter_cons, List.map_cons, List.count_cons] at *
      simp [h, ih]
    · simp only [countSlug, List.filter_cons, List.map_cons, List.count_cons] at *
      simp [h, ih]

theorem checkPostsDup_ok_nodup {posts : List Post}
    (h : checkPostsDup posts = .ok ()) : (posts.map Post.Slug).Nodup := by
  unfold checkPostsDup at h
  cases hf : posts.find? (fun post => decide (1 < countSlug posts post.Slug)) with
  | some q => rw [hf] at h; simp at h
  | none =>
    have hall : ∀ p ∈ posts, ¬(1 < countSlug posts p.Slug) := by
      intro p hp
      have := List.find?_eq_none.1 hf p hp
      simpa using this
    rw [List.nodup_iff_count_le_one]
    intro a
    by_cases ha : a ∈ posts.map Post.Slug
    · obtain ⟨p, hp, rfl⟩ := List.mem_map.1 ha
      have := hall p hp
      rw [countSlug_eq_count] at this
      omega
    · simp [List.count_eq_zero_of_not_mem ha]

theorem checkPostsDup_dup_error {posts : List Post} {s : String}
    (h : 2 ≤ countSlug posts s) :
    ∃ s2, 2 ≤ countSlug posts s2 ∧
      checkPostsDup posts = .error (.str ("存在同名的文章：" ++ s2)) := by
  have hex : ∃ p ∈ posts, p.Slug = s := by
    have hpos : 0 < (posts.filter fun post => post.Slug == s).length := by
      unfold countSlug at h; omega
    obtain ⟨p, hp⟩ := List.exists_mem_of_length_pos hpos
    have hmem := List.mem_of_mem_filter hp
    have heq : p.Slug = s := by simpa using List.of_mem_filter hp
    exact ⟨p, hmem, heq⟩
  obtain ⟨p, hp, hps⟩ := hex
  cases hf : posts.find? (fun post => decide (1 < countSlug posts post.Slug)) with
  | none =>
    exfalso
    have := List.find?_eq_none.1 hf p hp
    rw [hps] at this
    simp at this
    omega
  | some q =>
    have hq : 1 < countSlug posts q.Slug := by
      have := List.find?_some hf
      simpa using this
    refine ⟨q.Slug, by omega, ?_⟩
    unfold checkPostsDup
    rw [hf]

theorem loadPosts_ok_parts {env : Env} {out : List Post}
    (h : loadPosts env = .ok out) :
    ∃ slugs posts, env.walk = .ok slugs ∧ loadSlugs env slugs = .ok posts ∧
      checkPostsDup posts = .ok () ∧ out = sortPosts posts := by
  unfold loadPosts at h
  cases hw : env.walk with
  | error msg => rw [hw] at h; simp at h
  | ok slugs =>
    rw [hw] at h
    dsimp only at h
    cases hl : loadSlugs env slugs with
    | error e => rw [hl] at h; simp at h
    | ok posts =>
      rw [hl] at h
      dsimp only at h
      cases hc : checkPostsDup posts with
      | error e => rw [hc] at h; simp at h
      | ok u =>
        rw [hc] at h
        dsimp only at h
        cases u
        have : sortPosts posts = out := by simpa using h
        exact ⟨slugs, posts, rfl, hl, hc, this.symm⟩

theorem loadPosts_of_dup {env : Env} {slugs : List String} {posts : List Post} {s : String}
    (hw : env.walk = .ok slugs) (hl : loadSlugs env slugs = .ok posts)
    (h : 2 ≤ countSlug posts s) :
    ∃ s2, 2 ≤ countSlug posts s2 ∧
      loadPosts env = .error (.str ("存在同名的文章：" ++ s2)) := by
  obtain ⟨s2, hs2, herr⟩ := checkPostsDup_dup_error h
  refine ⟨s2, hs2, ?_⟩
  unfold loadPosts
  simp [hw, hl, herr]

/-! ### Lemmas on checkLinks -/

theorem checkLinks_first_bad (file : String) :
    ∀ (ls : List Link) (j i : Nat) (li : Link),
      (∀ l ∈ ls.take i, l.Text ≠ "" ∧ l.URL ≠ "") → ls[i]? = some li →
      (li.Text = "" ∨ li.URL = "") →
      checkLinks file j ls = some (.field
        { File := file,
          Field := "[" ++ toString (j + i) ++ "]." ++ (if li.Text = "" then "text" else "url"),
          Message := "不能为空" }) := by
  intro ls
  induction ls with
  | nil => intro j i li _ hi; simp at hi
  | cons l rest ih =>
    intro j i li hg hi hb
    cases i with
    | zero =>
      obtain rfl : l = li := by simpa using hi
      by_cases hT : l.Text = ""
      · simp [checkLinks, Link.sanitize, hT]
      · have hU : l.URL = "" := by
          rcases hb with hb | hb
          · exact absurd hb hT
          · exact hb
        simp [checkLinks, Link.sanitize, hT, hU]
    | succ i2 =>
      have hgood : l.Text ≠ "" ∧ l.URL ≠ "" := by
        refine hg l ?_
        simp [List.take_cons]
      have hs : l.sanitize = none := by
        simp [Link.sanitize, hgood.1, hgood.2]
      have hrec := ih (j + 1) i2 li
        (fun x hx => hg x (by simpa [List.take_cons] using List.mem_cons_of_mem l hx))
        (by simpa using hi) hb
      have he : j + 1 + i2 = j + (i2 + 1) := by omega
      rw [he] at hrec
      simpa [checkLinks, hs] using hrec

theorem checkLinks_none_of_good (file : String) (j : Nat) (ls : List Link)
    (h : ∀ l ∈ ls, l.Text ≠ "" ∧ l.URL ≠ "") : checkLinks file j ls = none := by
  induction ls generalizing j with
  | nil => rfl
  | cons l rest ih =>
    have hl := h l (List.mem_cons_self l rest)
    have hs : l.sanitize = none := by simp [Link.sanitize, hl.1, hl.2]
    simp [checkLinks, hs]
    exact ih (j + 1) fun x hx => h x (List.mem_cons_of_mem l hx)

theorem good_of_checkLinks_none (file : String) (j : Nat) (ls : List Link)
    (h : checkLinks file j ls = none) : ∀ l ∈ ls, l.Text ≠ "" ∧ l.URL ≠ "" := by
  induction ls generalizing j with
  | nil => simp
  | cons l rest ih =>
    intro x hx
    unfold checkLinks at h
    cases hs : l.sanitize with
    | some e => rw [hs] at h; simp at h
    | none =>
      rw [hs] at h
      dsimp only at h
      have hgood : l.Text ≠ "" ∧ l.URL ≠ "" := by
        by_cases hT : l.Text = ""
        · exfalso; simp [Link.sanitize, hT] at hs
        · by_cases hU : l.URL = ""
          · exfalso; simp [Link.sanitize, hT, hU] at hs
          · exact ⟨hT, hU⟩
      rcases List.mem_cons.1 hx with hx | hx
      · exact hx ▸ hgood
      · exact ih (j + 1) h x hx

/-! ### Claim theorems on the loading pipeline -/

/-- C2: a successful loadPosts returns pairwise distinct slugs, and a slug
appearing at least twice among the loaded non-draft posts makes loadPosts
fail with an error naming an offending slug, returning no collection. -/
theorem loadPosts_slug_unique (env : Env) (slugs : List String) (posts : List Post)
    (s : String)
    (hw : env.walk = .ok slugs) (hl : loadSlugs env slugs = .ok posts) :
    (∀ out, loadPosts env = .ok out → (out.map Post.Slug).Nodup)
    ∧ (2 ≤ countSlug posts s →
        ∃ s2, 2 ≤ countSlug posts s2 ∧
          loadPosts env = .error (.str ("存在同名的文章：" ++ s2))) := by
  constructor
  · intro out hout
    obtain ⟨slugs2, posts2, hw2, hl2, hc2, hs⟩ := loadPosts_ok_parts hout
    have hnd := checkPostsDup_ok_nodup hc2
    have hperm : List.Perm (out.map Post.Slug) (posts2.map Post.Slug) := by
      rw [hs]
      exact (sortPosts_perm posts2).map Post.Slug
    exact hperm.nodup_iff.2 hnd
  · intro hdup
    exact loadPosts_of_dup hw hl hdup

/-- C2 at a concrete input: two directories resolving to the same slug a
make the whole ingestion fail with the duplicate-slug error. -/
theorem loadPosts_slug_unique_witness :
    ∃ s2, 2 ≤ countSlug [loadedPostA, loadedPostA] s2 ∧
      loadPosts c2DupEnv = .error (.str ("存在同名的文章：" ++ s2)) :=
  (loadPosts_slug_unique c2DupEnv ["a", "a"] [loadedPostA, loadedPostA] "a"
    rfl (by rfl)).2 (by decide)

/-- C3: a metadata file with draft = true makes loadPost return the decoded
record immediately, whatever the content file, the date parser or the
validations would say, and the post never appears in a successful loadPosts
output. -/
theorem loadPost_draft_skipped (env : Env) (slug : String) (m : PostMeta)
    (hm : env.loadMeta slug = .ok m) (hd : m.draft = true) :
    loadPost env slug = .ok (decodeToPost m) ∧
      ∀ out, loadPosts env = .ok out → decodeToPost m ∉ out := by
  refine ⟨loadPost_draft hm hd, ?_⟩
  intro out hout hmem
  obtain ⟨slugs2, posts2, hw2, hl2, hc2, hs⟩ := loadPosts_ok_parts hout
  rw [hs] at hmem
  have hmem2 : decodeToPost m ∈ posts2 := (sortPosts_perm posts2).subset hmem
  have hdf := (loadSlugs_sound hl2 _ hmem2).1
  simp [decodeToPost, hd] at hdf

/-- C3 at a concrete input: a draft with an unreadable content file, an
unparsable created value and an empty title loads without error. -/
theorem loadPost_draft_skipped_witness :
    loadPost c3Env "d" = .ok (decodeToPost c3DraftMeta) :=
  (loadPost_draft_skipped c3Env "d" c3DraftMeta rfl rfl).1

/-- C4, counterexample: under c4ErrEnv the content file of slug a is
unreadable and loadPost fails with a field error whose Field is path, not
content as the claim states. -/
theorem loadPost_unreadable_counterexample :
    loadPost c4ErrEnv "a" = .error (.field
      { File := "meta/a", Field := "path", Message := "boom" }) ∧
      ("path" : String) ≠ "content" :=
  ⟨rfl, by decide⟩

/-- C4 (amended): an unreadable content file gives a field error with field
path (carrying the read error message); an empty content file gives a field
error with field content. -/
theorem loadPost_content_error_fields (env : Env) (slug : String) (m : PostMeta)
    (hm : env.loadMeta slug = .ok m) (hd : m.draft = false) :
    (∀ msg, env.readContent slug = .error msg →
      loadPost env slug = .error (.field
        { File := env.postMetaPath slug, Field := "path", Message := msg }))
    ∧ (env.readContent slug = .ok "" →
      loadPost env slug = .error (.field
        { File := env.postMetaPath slug, Field := "content", Message := "不能为空" })) :=
  ⟨fun _ hr => loadPost_content_unreadable hm hd hr,
   fun hr => loadPost_content_empty hm hd hr⟩

/-- C4 at a concrete input: an empty content file fails with field content. -/
theorem loadPost_content_error_fields_witness :
    loadPost c4EmptyEnv "a" = .error (.field
      { File := "meta/a", Field := "content", Message := "不能为空" }) :=
  (loadPost_content_error_fields c4EmptyEnv "a" goodMeta rfl rfl).2 rfl

/-- C5: for a decoded non-draft metadata record, loadPost returns the error
of the first failing check in the fixed order content (unreadable, then
empty), created parse, modified parse, empty title, empty tags, invalid
order; every error is a field error carrying the metadata-file path, the
field name and a message. In particular an unparsable created value wins
over an empty title (the title is unconstrained in the created conjunct). -/
theorem loadPost_first_failing_check (env : Env) (slug : String) (m : PostMeta)
    (hm : env.loadMeta slug = .ok m) (hd : m.draft = false) :
    (∀ msg, env.readContent slug = .error msg →
      loadPost env slug = .error (.field
        { File := env.postMetaPath slug, Field := "path", Message := msg }))
    ∧ (env.readContent slug = .ok "" →
      loadPost env slug = .error (.field
        { File := env.postMetaPath slug, Field := "content", Message := "不能为空" }))
    ∧ (∀ d msg, env.readContent slug = .ok d → d ≠ "" →
        env.parseDate m.created = .error msg →
      loadPost env slug = .error (.field
        { File := env.postMetaPath slug, Field := "created", Message := msg }))
    ∧ (∀ d tc msg, env.readContent slug = .ok d → d ≠ "" →
        env.parseDate m.created = .ok tc → env.parseDate m.modified = .error msg →
      loadPost env slug = .error (.field
        { File := env.postMetaPath slug, Field := "modified", Message := msg }))
    ∧ (∀ d tc tm, env.readContent slug = .ok d → d ≠ "" →
        env.parseDate m.created = .ok tc → env.parseDate m.modified = .ok tm →
        m.title = "" →
      loadPost env slug = .error (.field
        { File := env.postMetaPath slug, Field := "title", Message := "不能为空" }))
    ∧ (∀ d tc tm, env.readContent slug = .ok d → d ≠ "" →
        env.parseDate m.created = .ok tc → env.parseDate m.modified = .ok tm →
        m.title ≠ "" → m.tags = "" →
      loadPost env slug = .error (.field
        { File := env.postMetaPath slug, Field := "tags", Message := "不能为空" }))
    ∧ (∀ d tc tm, env.readContent slug = .ok d → d ≠ "" →
        env.parseDate m.created = .ok tc → env.parseDate m.modified = .ok tm →
        m.title ≠ "" → m.tags ≠ "" → m.order ≠ "" → m.order ≠ orderDefault →
        m.order ≠ orderLast → m.order ≠ orderTop →
      loadPost env slug = .error (.field
        { File := env.postMetaPath slug, Field := "order", Message := "无效的值" })) :=
  ⟨fun _ hr => loadPost_content_unreadable hm hd hr,
   fun hr => loadPost_content_empty hm hd hr,
   fun _ _ hr hne hp => loadPost_created_bad hm hd hr hne hp,
   fun _ _ _ hr hne hp hq => loadPost_modified_bad hm hd hr hne hp hq,
   fun _ _ _ hr hne hp hq ht => loadPost_title_empty hm hd hr hne hp hq ht,
   fun _ _ _ hr hne hp hq ht hg => loadPost_tags_empty hm hd hr hne hp hq ht hg,
   fun _ _ _ hr hne hp hq ht hg ho h1 h2 h3 =>
     loadPost_order_bad hm hd hr hne hp hq ht hg ho h1 h2 h3⟩

/-- C5 at a concrete input: a post whose created value does not parse and
whose title is empty fails with field created. -/
theorem loadPost_first_failing_check_witness :
    loadPost c5Env "a" = .error (.field
      { File := "meta/a", Field := "created", Message := "bad date" }) :=
  (loadPost_first_failing_check c5Env "a" c5Meta rfl rfl).2.2.1 "body" "bad date"
    rfl (by decide) rfl

/-- C7: an empty order is normalized to default, a value among top, last,
default is kept, any other value fails with a field error on field order,
and every post of a successful loadPosts output has a valid order. -/
theorem loadPost_order_normalization (env : Env) (slug : String) (m : PostMeta)
    (d : String) (tc tm : Int)
    (hm : env.loadMeta slug = .ok m) (hd : m.draft = false)
    (hr : env.readContent slug = .ok d) (hne : d ≠ "")
    (hp : env.parseDate m.created = .ok tc) (hq : env.parseDate m.modified = .ok tm)
    (ht : m.title ≠ "") (hg : m.tags ≠ "") :
    (m.order = "" → (loadPost env slug).map Post.Order = .ok orderDefault)
    ∧ (m.order = orderTop ∨ m.order = orderLast ∨ m.order = orderDefault →
        (loadPost env slug).map Post.Order = .ok m.order)
    ∧ (m.order ≠ "" → m.order ≠ orderDefault → m.order ≠ orderLast → m.order ≠ orderTop →
        loadPost env slug = .error (.field
          { File := env.postMetaPath slug, Field := "order", Message := "无效的值" }))
    ∧ ∀ out, loadPosts env = .ok out →
        ∀ p ∈ out, p.Order = orderTop ∨ p.Order = orderLast ∨ p.Order = orderDefault := by
  refine ⟨?_, ?_, ?_, ?_⟩
  · intro ho
    have h := loadPost_ok_order_map hm hd hr hne hp hq ht hg (Or.inl ho)
    rw [if_pos ho] at h
    exact h
  · intro ho
    have hvalid : m.order = "" ∨ m.order = orderDefault ∨ m.order = orderLast ∨
        m.order = orderTop := by tauto
    have h := loadPost_ok_order_map hm hd hr hne hp hq ht hg hvalid
    have hne2 : ¬m.order = "" := by
      rcases ho with ho | ho | ho <;> rw [ho] <;> decide
    rw [if_neg hne2] at h
    exact h
  · intro ho h1 h2 h3
    exact loadPost_order_bad hm hd hr hne hp hq ht hg ho h1 h2 h3
  · intro out hout p hpmem
    obtain ⟨slugs2, posts2, hw2, hl2, hc2, hs⟩ := loadPosts_ok_parts hout
    rw [hs] at hpmem
    have hp2 : p ∈ posts2 := (sortPosts_perm posts2).subset hpmem
    obtain ⟨hdf, _, hload⟩ := loadSlugs_sound hl2 p hp2
    exact loadPost_ok_valid_order hload hdf

/-- C7 at a concrete input: a metadata file with order middle fails with a
field error on field order. -/
theorem loadPost_order_normalization_witness :
    loadPost c7Env "a" = .error (.field
      { File := "meta/a", Field := "order", Message := "无效的值" }) :=
  (loadPost_order_normalization c7Env "a" c7Meta "body" 0 0 rfl rfl rfl
    (by decide) rfl rfl (by decide) (by decide)).2.2.1
    (by decide) (by decide) (by decide) (by decide)

/-- C9: a links file that cannot be loaded fails with that error; a first
invalid entry at index i fails with a field error embedding the zero-based
index as [i].text or [i].url; a file of valid entries loads as given; and
every link of a successful load has non-empty url and text. -/
theorem loadLinks_validation (e1 e2 e3 e4 : Env) (msg : String)
    (ls2 ls3 out : List Link) (i : Nat) (li : Link)
    (h1 : e1.linksYaml = .error msg)
    (h2 : e2.linksYaml = .ok ls2)
    (h2g : ∀ l ∈ ls2.take i, l.Text ≠ "" ∧ l.URL ≠ "")
    (h2i : ls2[i]? = some li) (h2b : li.Text = "" ∨ li.URL = "")
    (h3 : e3.linksYaml = .ok ls3) (h3g : ∀ l ∈ ls3, l.Text ≠ "" ∧ l.URL ≠ "")
    (h4 : loadLinks e4 = .ok out) :
    loadLinks e1 = .error (.str msg)
    ∧ loadLinks e2 = .error (.field
        { File := e2.metaLinksFile,
          Field := "[" ++ toString i ++ "]." ++ (if li.Text = "" then "text" else "url"),
          Message := "不能为空" })
    ∧ loadLinks e3 = .ok ls3
    ∧ ∀ l ∈ out, l.Text ≠ "" ∧ l.URL ≠ "" := by
  refine ⟨?_, ?_, ?_, ?_⟩
  · unfold loadLinks
    simp [h1]
  · have hbad := checkLinks_first_bad e2.metaLinksFile ls2 0 i li h2g h2i h2b
    rw [Nat.zero_add] at hbad
    unfold loadLinks
    simp [h2, hbad]
  · have hnone := checkLinks_none_of_good e3.metaLinksFile 0 ls3 h3g
    unfold loadLinks
    simp [h3, hnone]
  · unfold loadLinks at h4
    cases hy : e4.linksYaml with
    | error m2 => rw [hy] at h4; simp at h4
    | ok links =>
      rw [hy] at h4
      dsimp only at h4
      cases hc : checkLinks e4.metaLinksFile 0 links with
      | some e => rw [hc] at h4; simp at h4
      | none =>
        rw [hc] at h4
        dsimp only at h4
        obtain rfl : links = out := by simpa using h4
        exact good_of_checkLinks_none e4.metaLinksFile 0 links hc

/-- C9 at a concrete input: a valid link followed by a link with empty text
fails with the field path [1].text. -/
theorem loadLinks_validation_witness :
    loadLinks c9Env = .error (.field
      { File := "links", Field := "[1].text", Message := "不能为空" }) :=
  (loadLinks_validation c9ErrEnv c9Env c9OkEnv c9OkEnv "cannot load links"
    [c9GoodLink, c9BadLink] [c9GoodLink] [c9GoodLink] 1 c9BadLink
    rfl rfl (by decide) rfl (by decide) rfl (by decide) rfl).2.1

/-- C10: for a decoded draft metadata record, loadPost returns only the
YAML-decoded fields: Slug stays empty (the discovery slug is never
assigned), Created and Modified stay at the zero time, Content stays empty,
Permalink still holds the raw created text, HTMLTitle still holds the raw
modified text, Order is kept as written, and the search copies stay
empty. -/
theorem loadPost_draft_raw_fields (env : Env) (slug : String) (m : PostMeta)
    (hm : env.loadMeta slug = .ok m) (hd : m.draft = true) :
    loadPost env slug = .ok (decodeToPost m)
    ∧ (decodeToPost m).Slug = ""
    ∧ (decodeToPost m).Created = 0
    ∧ (decodeToPost m).Modified = 0
    ∧ (decodeToPost m).Content = ""
    ∧ (decodeToPost m).Permalink = m.created
    ∧ (decodeToPost m).HTMLTitle = m.modified
    ∧ (decodeToPost m).Order = m.order
    ∧ (decodeToPost m).SearchTitle = ""
    ∧ (decodeToPost m).SearchContent = "" :=
  ⟨loadPost_draft hm hd, rfl, rfl, rfl, rfl, rfl, rfl, rfl, rfl, rfl⟩

/-- C10 at a concrete input: a draft whose order is middle and whose raw
timestamp texts are unparsable loads as the decoded record itself. -/
theorem loadPost_draft_raw_fields_witness :
    loadPost c10Env "d" = .ok (decodeToPost c10Meta) :=
  (loadPost_draft_raw_fields c10Env "d" c10Meta rfl rfl).1
